import Mathlib

set_option maxHeartbeats 1000000

/-!
Shallow embedding of the NostrClient module of this repository
(src/unnamed/part_002): pubkey validation and normalization
(`isValidPubkey`, `normalizePubkey`), the day-windowed fetch loop of
`getEvents`, and the per-window subscription state machine of
`fetchEventBatch` (message handler, silence timer, EOSE handling).
-/

deriving instance DecidableEq for Except

namespace NostrActivity

/-- Progress record passed to the `onProgress` callback of `getEvents`.
The source formats `startDate`/`endDate` as ISO strings of the unix
timestamps; the timestamps themselves are kept here (the formatting is
injective on the values involved). -/
structure FetchProgress where
  currentBatch : Nat
  totalBatches : Nat
  fetchedEvents : Nat
  batchStart : Nat
  batchEnd : Nat
  deriving DecidableEq, Repr

/-- Observable outcome of one `getEvents` run: the accumulated event
payloads (`events.push(...batchEvents)`), the progress notifications
emitted via `onProgress`, and the `(since, until)` bounds of every filter
handed to `fetchEventBatch` (the `authors` field is the constant
normalized key and is omitted). Events are abstracted by a type `α`. -/
structure FetchRun (α : Type) where
  events : List α
  progresses : List FetchProgress
  requests : List (Nat × Nat)
  deriving DecidableEq, Repr

/-- The `while (hasMoreEvents && currentStartTime < currentEndTime)` loop of
`NostrClient.getEvents`. `oracle k` abstracts the awaited result of
`this.fetchEventBatch(filter)` for the k-th batch (`k = batchCount` after
the increment): `.ok l` is a fulfilled promise with events `l`, `.error ()`
a rejected one (caught by the `catch` arm, which advances the cursor and
continues). `hasMoreEvents = false` is represented by returning instead of
recursing. The source fixes `W = BATCH_WINDOW = 86400`; the guard `0 < W`
is part of the loop-termination argument and holds for that value. -/
def getEventsLoop {α : Type} (oracle : Nat → Except Unit (List α))
    (total W endT cur batchCount : Nat) (acc : FetchRun α) : FetchRun α :=
  if h : cur < endT ∧ 0 < W then
    match oracle (batchCount + 1) with
    | .ok batchEvents =>
      let acc' : FetchRun α :=
        { events := acc.events ++ batchEvents
          progresses := acc.progresses ++
            [{ currentBatch := batchCount + 1, totalBatches := total,
               fetchedEvents := (acc.events ++ batchEvents).length,
               batchStart := cur, batchEnd := min (cur + W) endT }]
          requests := acc.requests ++ [(cur, min (cur + W) endT)] }
      if batchEvents.length = 0 then acc'
      else getEventsLoop oracle total W endT (min (cur + W) endT) (batchCount + 1) acc'
    | .error _ =>
      getEventsLoop oracle total W endT (min (cur + W) endT) (batchCount + 1)
        { acc with requests := acc.requests ++ [(cur, min (cur + W) endT)] }
  else acc
termination_by endT - cur
decreasing_by
  all_goals omega

/-- The `totalBatches = Math.ceil((currentEndTime - startTime) / BATCH_WINDOW)`
computation of `getEvents`, with the natural-number ceiling. -/
def totalBatches (startTime endTime W : Nat) : Nat :=
  (endTime - startTime + W - 1) / W

/-- The sequence of `(currentStartTime, batchEndTime)` windows generated by
the cursor recurrence of `getEvents`:
`batchEndTime = Math.min(currentStartTime + BATCH_WINDOW, currentEndTime)`,
iterated while `currentStartTime < currentEndTime`. This is the window plan
the loop follows when no batch stops it early. -/
def planWindows (W endT cur : Nat) : List (Nat × Nat) :=
  if h : cur < endT ∧ 0 < W then
    (cur, min (cur + W) endT) :: planWindows W endT (min (cur + W) endT)
  else []
termination_by endT - cur
decreasing_by
  all_goals omega

/-- Character-class test of the regex `[0-9a-fA-F]` used by
`isValidPubkey`, expressed on code points. -/
def hexDigit (c : Char) : Bool :=
  (48 ≤ c.toNat && c.toNat ≤ 57) ||
  (97 ≤ c.toNat && c.toNat ≤ 102) ||
  (65 ≤ c.toNat && c.toNat ≤ 70)

/-- The regex test `/^[0-9a-fA-F]\x7b64\x7d$/.test(pubkey)` of
`isValidPubkey`: exactly 64 characters, all hexadecimal digits. -/
def isHex64 (s : String) : Bool :=
  s.data.length == 64 && s.data.all hexDigit

/-- Model of `pubkey.startsWith(p)`: the first characters of `s` are
exactly the characters of `p`. -/
def jsStartsWith (s p : String) : Bool :=
  s.data.take p.data.length == p.data

/-- Model of `pubkey.toLowerCase()`. On the strings this client lower-cases
(validated hexadecimal keys, all ASCII) the JS conversion maps `A`..`Z` to
`a`..`z` and fixes everything else, which is exactly `Char.toLower`. -/
def jsToLower (s : String) : String :=
  ⟨s.data.map Char.toLower⟩

/-- Model of `NostrClient.isValidPubkey`. `decode` abstracts
`nip19.decode` from nostr-tools: `none` when it throws, otherwise
`some (type, data?)` where `data?` is `some d` exactly when the decoded
`data` is a string `d`. The npub branch checks the type tag and that the
data is a string; otherwise the hex-64 regex decides. -/
def isValidPubkey (decode : String → Option (String × Option String))
    (pubkey : String) : Bool :=
  if jsStartsWith pubkey "npub" then
    match decode pubkey with
    | some (ty, some _) => ty == "npub"
    | some (_, none) => false
    | none => false
  else isHex64 pubkey

/-- Model of `NostrClient.normalizePubkey`: throws (here `.error`) on an
invalid pubkey, decodes npub input, and lower-cases hex input. The final
match arm is unreachable under validity and stands for the unchecked
`data as string` cast. -/
def normalizePubkey (decode : String → Option (String × Option String))
    (pubkey : String) : Except String String :=
  if isValidPubkey decode pubkey then
    if jsStartsWith pubkey "npub" then
      match decode pubkey with
      | some (_, some d) => .ok d
      | _ => .ok ""
    else .ok (jsToLower pubkey)
  else .error pubkey

/-- Numeric value of a hexadecimal digit character, used to state that
lower-casing a hex key leaves its value unchanged. -/
def hexDigitVal (c : Char) : Nat :=
  if 48 ≤ c.toNat && c.toNat ≤ 57 then c.toNat - 48
  else if 97 ≤ c.toNat && c.toNat ≤ 102 then c.toNat - 87
  else c.toNat - 55

/-- The whole `getEvents` entry point: normalize the pubkey (propagating
its failure), then run the batch loop from `startTime` up to the current
time `nowTime` with the one-day window and the up-front `totalBatches`. -/
def getEvents {α : Type} (decode : String → Option (String × Option String))
    (oracle : Nat → Except Unit (List α)) (pubkey : String)
    (startTime nowTime : Nat) : Except String (FetchRun α) :=
  match normalizePubkey decode pubkey with
  | .error e => .error e
  | .ok _ => .ok (getEventsLoop oracle (totalBatches startTime nowTime 86400)
      86400 nowTime startTime 0 { events := [], progresses := [], requests := [] })

/-- Client-to-relay messages sent during one `fetchEventBatch` call:
the opening `["REQ", subId, filter]` and the `["CLOSE", subId]` requests.
The subscription id and filter are fixed for the call and omitted. -/
inductive OutMsg : Type
  | req
  | close
  deriving DecidableEq, Repr

/-- Wire messages delivered to `relay.onmessage`, as classified by the
handler of `fetchEventBatch` after `JSON.parse`: an EVENT carrying a
payload, an EOSE, any other well-formed message (the handler ignores it),
or a malformed payload on which parsing/processing throws. -/
inductive WireMsg (α : Type) : Type
  | eventMsg (payload : α)
  | eoseMsg
  | otherMsg
  | malformed
  deriving DecidableEq, Repr

/-- One asynchronous happening observed by a `fetchEventBatch` call:
either the connection delivers a wire message, or the pending silence
timer fires (10 seconds without `resetTimeout`). -/
inductive BatchInput (α : Type) : Type
  | wire (m : WireMsg α)
  | silence
  deriving DecidableEq, Repr

/-- State of one `fetchEventBatch` promise: the `events` buffer, the
`receivedEose` flag, whether the silence timer is pending
(`timerActive`; `clearTimeout` and firing both clear it), whether
`relay.onmessage` is still attached (`handlerActive`; `cleanup` detaches
it), the messages sent on the connection, and the promise settlement
(`.ok l` for `resolve(events)`, `.error ()` for `reject(error)`). -/
structure BatchState (α : Type) where
  events : List α
  receivedEose : Bool
  timerActive : Bool
  handlerActive : Bool
  sent : List OutMsg
  outcome : Option (Except Unit (List α))
  deriving DecidableEq, Repr

/-- First settlement wins: a JS promise ignores `resolve`/`reject` calls
after it is settled. -/
def settleOnce {α : Type} (old : Option (Except Unit (List α)))
    (new : Except Unit (List α)) : Option (Except Unit (List α)) :=
  match old with
  | some o => some o
  | none => some new

/-- State of `fetchEventBatch` right after setup: empty buffer, timer
started by the initial `resetTimeout()`, handler attached, REQ sent,
promise pending. -/
def fetchBatchInit {α : Type} : BatchState α :=
  { events := [], receivedEose := false, timerActive := true,
    handlerActive := true, sent := [.req], outcome := none }

/-- Transition of the `fetchEventBatch` machine on one happening,
mirroring the `relay.onmessage` handler and the `setTimeout` callback:
an EVENT appends the payload and resets the timer; an EOSE sets
`receivedEose`, runs `cleanup()` (clear timer, detach handler), sends
CLOSE and resolves; a malformed message runs `cleanup()` and rejects
without sending CLOSE; the timer firing (only possible while pending)
sends CLOSE and resolves with the buffer when no EOSE arrived. -/
def fetchBatchStep {α : Type} (s : BatchState α) (i : BatchInput α) :
    BatchState α :=
  match i with
  | .wire m =>
    if s.handlerActive then
      match m with
      | .eventMsg e => { s with events := s.events ++ [e], timerActive := true }
      | .eoseMsg =>
        { s with receivedEose := true, timerActive := false,
                 handlerActive := false, sent := s.sent ++ [.close],
                 outcome := settleOnce s.outcome (.ok s.events) }
      | .otherMsg => s
      | .malformed =>
        { s with timerActive := false, handlerActive := false,
                 outcome := settleOnce s.outcome (.error ()) }
    else s
  | .silence =>
    if s.timerActive then
      if s.receivedEose then { s with timerActive := false }
      else
        { s with timerActive := false, handlerActive := false,
                 sent := s.sent ++ [.close],
                 outcome := settleOnce s.outcome (.ok s.events) }
    else s

/-- Run of one `fetchEventBatch` call over a whole sequence of observed
happenings, starting from the post-setup state. -/
def fetchBatchRun {α : Type} (l : List (BatchInput α)) : BatchState α :=
  l.foldl fetchBatchStep fetchBatchInit

/-- The loop does nothing once the cursor reaches the end of the range. -/
theorem getEventsLoop_stop {α : Type} (oracle : Nat → Except Unit (List α))
    (total W endT cur k : Nat) (acc : FetchRun α) (h : ¬ (cur < endT ∧ 0 < W)) :
    getEventsLoop oracle total W endT cur k acc = acc := by
  rw [getEventsLoop]
  simp [h]

/-- Unfolding of one successful iteration whose batch is nonempty: append
the events, emit a progress notification, and continue from the window
end. -/
theorem getEventsLoop_ok_cont {α : Type} (oracle : Nat → Except Unit (List α))
    (total W endT cur k : Nat) (acc : FetchRun α) (batchEvents : List α)
    (hW : 0 < W) (hcur : cur < endT) (hok : oracle (k + 1) = .ok batchEvents)
    (hne : batchEvents.length ≠ 0) :
    getEventsLoop oracle total W endT cur k acc =
      getEventsLoop oracle total W endT (min (cur + W) endT) (k + 1)
        { events := acc.events ++ batchEvents
          progresses := acc.progresses ++
            [{ currentBatch := k + 1, totalBatches := total,
               fetchedEvents := (acc.events ++ batchEvents).length,
               batchStart := cur, batchEnd := min (cur + W) endT }]
          requests := acc.requests ++ [(cur, min (cur + W) endT)] } := by
  rw [getEventsLoop]
  rw [dif_pos ⟨hcur, hW⟩, hok]
  simp [hne]

/-- Unfolding of one successful iteration whose batch is empty: append
nothing, emit a progress notification, and return without touching any
later window. -/
theorem getEventsLoop_ok_empty {α : Type} (oracle : Nat → Except Unit (List α))
    (total W endT cur k : Nat) (acc : FetchRun α)
    (hW : 0 < W) (hcur : cur < endT) (hok : oracle (k + 1) = .ok ([] : List α)) :
    getEventsLoop oracle total W endT cur k acc =
      { events := acc.events
        progresses := acc.progresses ++
          [{ currentBatch := k + 1, totalBatches := total,
             fetchedEvents := acc.events.length,
             batchStart := cur, batchEnd := min (cur + W) endT }]
        requests := acc.requests ++ [(cur, min (cur + W) endT)] } := by
  rw [getEventsLoop]
  rw [dif_pos ⟨hcur, hW⟩, hok]
  simp

/-- Unfolding of one failed iteration: record the attempted request,
advance the cursor to the window end, and continue with the next window;
no events are added and no progress notification is emitted. -/
theorem getEventsLoop_error {α : Type} (oracle : Nat → Except Unit (List α))
    (total W endT cur k : Nat) (acc : FetchRun α)
    (hW : 0 < W) (hcur : cur < endT) (herr : oracle (k + 1) = .error ()) :
    getEventsLoop oracle total W endT cur k acc =
      getEventsLoop oracle total W endT (min (cur + W) endT) (k + 1)
        { acc with requests := acc.requests ++ [(cur, min (cur + W) endT)] } := by
  rw [getEventsLoop]
  rw [dif_pos ⟨hcur, hW⟩, herr]

/-- The loop only ever appends to the request log. -/
theorem getEventsLoop_requests_mono {α : Type} (oracle : Nat → Except Unit (List α))
    (total W endT : Nat) :
    ∀ (cur k : Nat) (acc : FetchRun α),
      acc.requests.length ≤ (getEventsLoop oracle total W endT cur k acc).requests.length := by
  intro cur k acc
  induction cur, k, acc using getEventsLoop.induct oracle total W endT with
  | case1 cur k acc h batchEvents hok hlen =>
    rw [getEventsLoop, dif_pos h, hok]
    simp [hlen]
  | case2 cur k acc h batchEvents hok acc' hlen ih =>
    rw [getEventsLoop, dif_pos h, hok]
    simp only [if_neg hlen]
    refine le_trans ?_ ih
    simp [acc']
  | case3 cur k acc h a herr ih =>
    rw [getEventsLoop, dif_pos h, herr]
    refine le_trans ?_ ih
    simp
  | case4 cur k acc h =>
    rw [getEventsLoop, dif_neg h]

/-- Whenever the cursor is still strictly inside the range, the loop sends
at least one more subscription request. -/
theorem getEventsLoop_requests_one {α : Type} (oracle : Nat → Except Unit (List α))
    (total W endT cur k : Nat) (acc : FetchRun α)
    (hW : 0 < W) (hcur : cur < endT) :
    acc.requests.length + 1 ≤ (getEventsLoop oracle total W endT cur k acc).requests.length := by
  rw [getEventsLoop, dif_pos ⟨hcur, hW⟩]
  cases hok : oracle (k + 1) with
  | ok batchEvents =>
    by_cases hlen : batchEvents.length = 0
    · simp [hlen]
    · simp only [if_neg hlen]
      refine le_trans ?_ (getEventsLoop_requests_mono oracle total W endT _ _ _)
      simp
  | error a =>
    refine le_trans ?_ (getEventsLoop_requests_mono oracle total W endT _ _ _)
    simp

/-- Invariant of the loop: starting from an accumulator whose
notifications are pairwise ordered (non-decreasing cumulative count,
strictly increasing batch index), bounded by the current accumulator
length and batch counter, the final notification list is pairwise ordered
as well. -/
theorem getEventsLoop_pairwise {α : Type} (oracle : Nat → Except Unit (List α))
    (total W endT : Nat) :
    ∀ (cur k : Nat) (acc : FetchRun α),
      (∀ p ∈ acc.progresses, p.fetchedEvents ≤ acc.events.length ∧ p.currentBatch ≤ k) →
      List.Pairwise (fun p q => p.fetchedEvents ≤ q.fetchedEvents ∧ p.currentBatch < q.currentBatch)
        acc.progresses →
      List.Pairwise (fun p q => p.fetchedEvents ≤ q.fetchedEvents ∧ p.currentBatch < q.currentBatch)
        (getEventsLoop oracle total W endT cur k acc).progresses := by
  intro cur k acc
  induction cur, k, acc using getEventsLoop.induct oracle total W endT with
  | case1 cur k acc h batchEvents hok hlen =>
    intro hinv hpw
    rw [getEventsLoop, dif_pos h, hok]
    simp only [if_pos hlen]
    refine List.pairwise_append.mpr ⟨hpw, by simp, ?_⟩
    intro p hp q hq
    rcases List.mem_singleton.mp hq with rfl
    rcases hinv p hp with ⟨h1, h2⟩
    constructor
    · simpa using le_trans h1 (by simp)
    · simpa using Nat.lt_succ_of_le h2
  | case2 cur k acc h batchEvents hok acc' hlen ih =>
    intro hinv hpw
    rw [getEventsLoop, dif_pos h, hok]
    simp only [if_neg hlen]
    refine ih ?_ ?_
    · intro p hp
      simp only [acc', List.mem_append, List.mem_singleton] at hp
      rcases hp with hp | rfl
      · rcases hinv p hp with ⟨h1, h2⟩
        exact ⟨le_trans h1 (by simp [acc']), le_trans h2 (Nat.le_succ k)⟩
      · simp [acc']
    · refine List.pairwise_append.mpr ⟨hpw, by simp, ?_⟩
      intro p hp q hq
      rcases List.mem_singleton.mp hq with rfl
      rcases hinv p hp with ⟨h1, h2⟩
      constructor
      · simpa using le_trans h1 (by simp)
      · simpa using Nat.lt_succ_of_le h2
  | case3 cur k acc h a herr ih =>
    intro hinv hpw
    rw [getEventsLoop, dif_pos h, herr]
    refine ih ?_ hpw
    intro p hp
    rcases hinv p hp with ⟨h1, h2⟩
    exact ⟨h1, le_trans h2 (Nat.le_succ k)⟩
  | case4 cur k acc h =>
    intro hinv hpw
    rw [getEventsLoop, dif_neg h]
    exact hpw

/-- The plan is empty exactly when the range is empty (or the window size
is zero). -/
theorem planWindows_stop (W endT cur : Nat) (h : ¬ (cur < endT ∧ 0 < W)) :
    planWindows W endT cur = [] := by
  rw [planWindows]
  simp [h]

/-- Unfolding of the plan at a cursor strictly inside the range. -/
theorem planWindows_cons (W endT cur : Nat) (hW : 0 < W) (hcur : cur < endT) :
    planWindows W endT cur =
      (cur, min (cur + W) endT) :: planWindows W endT (min (cur + W) endT) := by
  rw [planWindows]
  simp [hcur, hW]

/-- The number of planned windows is the ceiling of the remaining range
divided by the window size. -/
theorem planWindows_length (W endT : Nat) (hW : 0 < W) :
    ∀ cur : Nat, (planWindows W endT cur).length = (endT - cur + W - 1) / W := by
  intro cur
  induction cur using planWindows.induct W endT with
  | case1 cur h ih =>
    rw [planWindows_cons W endT cur h.2 h.1]
    simp only [List.length_cons, ih]
    rcases Nat.lt_or_ge (cur + W) endT with hlt | hge
    · rw [min_eq_left (le_of_lt hlt)]
      have h1 : endT - cur + W - 1 = (endT - (cur + W) + W - 1) + W := by omega
      rw [h1, Nat.add_div_right _ hW]
    · rw [min_eq_right hge]
      have h2 : (endT - endT + W - 1) / W = 0 := Nat.div_eq_of_lt (by omega)
      have h1 : endT - cur + W - 1 = (endT - cur - 1) + W := by omega
      rw [h2, h1, Nat.add_div_right _ hW, Nat.div_eq_of_lt (by omega)]
  | case2 cur h =>
    rw [planWindows_stop W endT cur h]
    simp only [List.length_nil]
    have h2 : endT - cur = 0 := by omega
    rw [h2]
    exact (Nat.div_eq_of_lt (by omega)).symm

/-- Every planned window ends at `min (start + W) endT` for its own
start. -/
theorem planWindows_ends (W endT : Nat) :
    ∀ cur : Nat, ∀ w ∈ planWindows W endT cur, w.2 = min (w.1 + W) endT := by
  intro cur
  induction cur using planWindows.induct W endT with
  | case1 cur h ih =>
    rw [planWindows_cons W endT cur h.2 h.1]
    intro w hw
    rcases List.mem_cons.mp hw with rfl | hw
    · rfl
    · exact ih w hw
  | case2 cur h =>
    rw [planWindows_stop W endT cur h]
    intro w hw
    simp at hw

/-- First window of a nonempty plan: it starts at the cursor. -/
theorem planWindows_head (W endT cur : Nat) (hW : 0 < W) (hcur : cur < endT) :
    (planWindows W endT cur).head? = some (cur, min (cur + W) endT) := by
  rw [planWindows_cons W endT cur hW hcur]
  rfl

/-- Adjacent planned windows are contiguous: each window ends where the
next one starts. -/
theorem planWindows_chain (W endT : Nat) :
    ∀ cur : Nat, List.Chain' (fun a b => a.2 = b.1) (planWindows W endT cur) := by
  intro cur
  induction cur using planWindows.induct W endT with
  | case1 cur h ih =>
    rw [planWindows_cons W endT cur h.2 h.1]
    refine List.chain'_cons'.mpr ⟨?_, ih⟩
    intro y hy
    by_cases h2 : min (cur + W) endT < endT
    · rw [planWindows_head W endT _ h.2 h2] at hy
      simp only [Option.mem_def, Option.some_inj] at hy
      rw [← hy]
    · rw [planWindows_stop W endT _ (by omega)] at hy
      simp at hy
  | case2 cur h =>
    rw [planWindows_stop W endT cur h]
    simp

/-- The last planned window ends exactly at the overall end of the
range. -/
theorem planWindows_last (W endT : Nat) :
    ∀ cur : Nat, cur < endT → 0 < W →
      ((planWindows W endT cur).getLast?).map Prod.snd = some endT := by
  intro cur
  induction cur using planWindows.induct W endT with
  | case1 cur h ih =>
    intro hcur hW
    rw [planWindows_cons W endT cur h.2 h.1]
    by_cases h2 : min (cur + W) endT < endT
    · have hih := ih h2 h.2
      rw [planWindows_cons W endT (min (cur + W) endT) h.2 h2] at hih ⊢
      rw [List.getLast?_cons_cons]
      exact hih
    · have hmin : min (cur + W) endT = endT := by omega
      rw [planWindows_stop W endT _ (by omega)]
      simp [hmin]
  | case2 cur h =>
    intro hcur hW
    exact absurd ⟨hcur, hW⟩ h

/-- If every batch succeeds with a nonempty result, the loop's request log
follows the window plan exactly. -/
theorem getEventsLoop_requests_plan {α : Type} (oracle : Nat → Except Unit (List α))
    (total W endT : Nat)
    (hfull : ∀ j : Nat, ∃ l : List α, oracle j = .ok l ∧ l.length ≠ 0) :
    ∀ (cur k : Nat) (acc : FetchRun α),
      (getEventsLoop oracle total W endT cur k acc).requests =
        acc.requests ++ planWindows W endT cur := by
  intro cur k acc
  induction cur, k, acc using getEventsLoop.induct oracle total W endT with
  | case1 cur k acc h batchEvents hok hlen =>
    rcases hfull (k + 1) with ⟨l, hl, hne⟩
    rw [hok] at hl
    cases hl
    exact absurd hlen hne
  | case2 cur k acc h batchEvents hok acc' hlen ih =>
    rw [getEventsLoop, dif_pos h, hok]
    simp only [if_neg hlen]
    rw [ih, planWindows_cons W endT cur h.2 h.1]
    simp [acc']
  | case3 cur k acc h a herr =>
    rcases hfull (k + 1) with ⟨l, hl, hne⟩
    rw [herr] at hl
    cases hl
  | case4 cur k acc h =>
    rw [getEventsLoop, dif_neg h, planWindows_stop W endT cur h]
    simp

/-- Once the message handler is detached and no timer is pending, nothing
can change the state of a batch: every resolution path is final. -/
theorem fetchBatchStep_fixed {α : Type} (s : BatchState α) (i : BatchInput α)
    (hh : s.handlerActive = false) (ht : s.timerActive = false) :
    fetchBatchStep s i = s := by
  cases i with
  | wire m => simp [fetchBatchStep, hh]
  | silence => simp [fetchBatchStep, ht]

/-- A settled batch state is a fixed point of the whole remaining input
sequence. -/
theorem fetchBatchFoldl_fixed {α : Type} (s : BatchState α)
    (hh : s.handlerActive = false) (ht : s.timerActive = false) :
    ∀ l : List (BatchInput α), l.foldl fetchBatchStep s = s := by
  intro l
  induction l with
  | nil => rfl
  | cons i l ih =>
    simp only [List.foldl_cons, fetchBatchStep_fixed s i hh ht]
    exact ih

/-- Char code of `Char.ofNat` on the code points produced by
lower-casing. -/
theorem toNat_charOfNat (n : Nat) (h : n < 55296) : (Char.ofNat n).toNat = n := by
  have hv : n.isValidChar := Or.inl h
  rw [Char.ofNat, dif_pos hv]
  rfl

/-- Lower-casing a hexadecimal digit keeps it hexadecimal, keeps its
numeric value, and is idempotent. -/
theorem toLower_hexDigit (c : Char) (h : hexDigit c = true) :
    hexDigit (Char.toLower c) = true ∧
    hexDigitVal (Char.toLower c) = hexDigitVal c ∧
    Char.toLower (Char.toLower c) = Char.toLower c := by
  simp only [hexDigit, Bool.or_eq_true, Bool.and_eq_true, decide_eq_true_eq] at h
  rcases h with (h | h) | h
  · have hcond : ¬ (c.toNat ≥ 65 ∧ c.toNat ≤ 90) := by omega
    rw [Char.toLower]
    simp only [if_neg hcond]
    simp only [hexDigit, hexDigitVal, Bool.or_eq_true, Bool.and_eq_true, decide_eq_true_eq]
    refine ⟨by omega, trivial, ?_⟩
    rw [Char.toLower]
    simp [if_neg hcond]
  · have hcond : ¬ (c.toNat ≥ 65 ∧ c.toNat ≤ 90) := by omega
    rw [Char.toLower]
    simp only [if_neg hcond]
    simp only [hexDigit, hexDigitVal, Bool.or_eq_true, Bool.and_eq_true, decide_eq_true_eq]
    refine ⟨by omega, trivial, ?_⟩
    rw [Char.toLower]
    simp [if_neg hcond]
  · have hcond : c.toNat ≥ 65 ∧ c.toNat ≤ 90 := by omega
    rw [Char.toLower]
    simp only [if_pos hcond]
    have hlow : (Char.ofNat (c.toNat + 32)).toNat = c.toNat + 32 :=
      toNat_charOfNat _ (by omega)
    refine ⟨?_, ?_, ?_⟩
    · simp only [hexDigit, Bool.or_eq_true, Bool.and_eq_true, decide_eq_true_eq, hlow]
      omega
    · simp only [hexDigitVal, hlow]
      have h1 : ¬ (48 ≤ c.toNat + 32 && c.toNat + 32 ≤ 57) = true := by
        simp only [Bool.and_eq_true, decide_eq_true_eq]
        omega
      have h2 : (97 ≤ c.toNat + 32 && c.toNat + 32 ≤ 102) = true := by
        simp only [Bool.and_eq_true, decide_eq_true_eq]
        omega
      have h3 : ¬ (48 ≤ c.toNat && c.toNat ≤ 57) = true := by
        simp only [Bool.and_eq_true, decide_eq_true_eq]
        omega
      have h4 : ¬ (97 ≤ c.toNat && c.toNat ≤ 102) = true := by
        simp only [Bool.and_eq_true, decide_eq_true_eq]
        omega
      rw [if_neg h1, if_pos h2, if_neg h3, if_neg h4]
      omega
    · rw [Char.toLower]
      simp only [hlow]
      rw [if_neg (by omega)]

/-- Data of the lower-cased string is the character-wise lower-casing. -/
theorem jsToLower_data (s : String) : (jsToLower s).data = s.data.map Char.toLower :=
  rfl

/-- Lower-casing preserves the hex-64 shape. -/
theorem isHex64_jsToLower (s : String) (h : isHex64 s = true) :
    isHex64 (jsToLower s) = true := by
  simp only [isHex64, Bool.and_eq_true, beq_iff_eq, List.all_eq_true] at h ⊢
  rcases h with ⟨hlen, hall⟩
  refine ⟨by simp [jsToLower_data, hlen], ?_⟩
  intro c hc
  rw [jsToLower_data] at hc
  rcases List.mem_map.mp hc with ⟨d, hd, rfl⟩
  exact (toLower_hexDigit d (hall d hd)).1

/-- A 64-character hexadecimal key can never start with the npub
prefix. -/
theorem jsStartsWith_npub_of_hex (s : String) (h : isHex64 s = true) :
    jsStartsWith s "npub" = false := by
  simp only [isHex64, Bool.and_eq_true, beq_iff_eq, List.all_eq_true] at h
  rcases h with ⟨hlen, hall⟩
  by_contra hc
  rw [Bool.not_eq_false] at hc
  simp only [jsStartsWith, beq_iff_eq] at hc
  have hn : 'n' ∈ s.data.take (String.data "npub").length := by
    rw [hc]
    decide
  have hn2 : 'n' ∈ s.data := List.take_subset _ _ hn
  have := hall 'n' hn2
  simp [hexDigit] at this

/-- Lower-casing twice is the same as lower-casing once on a hex-64
string. -/
theorem jsToLower_idem (s : String) (h : isHex64 s = true) :
    jsToLower (jsToLower s) = jsToLower s := by
  simp only [isHex64, Bool.and_eq_true, beq_iff_eq, List.all_eq_true] at h
  rcases h with ⟨hlen, hall⟩
  apply congrArg String.mk
  rw [jsToLower_data s, List.map_map]
  apply List.map_congr_left
  intro c hc
  simp only [Function.comp_apply]
  exact (toLower_hexDigit c (hall c hc)).2.2

/-- C1: when a window's batch fetch succeeds with zero records, `getEvents`
stops: it emits the progress notification for that window, returns exactly
the records accumulated so far, and issues no subscription request for any
window after the empty one — the run's final state is the current
accumulator extended only by the empty window's own notification and
request. -/
theorem getEvents_empty_batch_stops {α : Type} (oracle : Nat → Except Unit (List α))
    (total W endT cur k : Nat) (acc : FetchRun α)
    (hW : 0 < W) (hcur : cur < endT) (hok : oracle (k + 1) = .ok ([] : List α)) :
    getEventsLoop oracle total W endT cur k acc =
      { events := acc.events
        progresses := acc.progresses ++
          [{ currentBatch := k + 1, totalBatches := total,
             fetchedEvents := acc.events.length,
             batchStart := cur, batchEnd := min (cur + W) endT }]
        requests := acc.requests ++ [(cur, min (cur + W) endT)] } :=
  getEventsLoop_ok_empty oracle total W endT cur k acc hW hcur hok

/-- Witness for C1: a concrete run whose first window is empty stops with
no events, one notification and a single request. -/
theorem getEvents_empty_batch_stops_witness :
    getEventsLoop (fun _ => .ok ([] : List Nat)) 1 10 5 0 0
        { events := [], progresses := [], requests := [] } =
      { events := []
        progresses := [{ currentBatch := 1, totalBatches := 1, fetchedEvents := 0,
                         batchStart := 0, batchEnd := min (0 + 10) 5 }]
        requests := [(0, min (0 + 10) 5)] } :=
  getEvents_empty_batch_stops (fun _ => .ok []) 1 10 5 0 0
    { events := [], progresses := [], requests := [] } (by decide) (by decide) rfl

/-- C3: a window whose batch fetch is rejected does not abort the run: the
loop records the attempted request, advances the cursor to the window's
end, adds no records and emits no progress notification for that window,
and continues with the next window. In the concrete five-window run where
window 2 fails, the result still holds the records of windows 1, 3, 4, 5
and the notification stream skips exactly window 2. -/
theorem getEvents_error_continues :
    (∀ (α : Type) (oracle : Nat → Except Unit (List α)) (total W endT cur k : Nat)
        (acc : FetchRun α), 0 < W → cur < endT → oracle (k + 1) = .error () →
        getEventsLoop oracle total W endT cur k acc =
          getEventsLoop oracle total W endT (min (cur + W) endT) (k + 1)
            { acc with requests := acc.requests ++ [(cur, min (cur + W) endT)] }) ∧
    (getEventsLoop (fun j => if j = 2 then .error () else .ok [10 * j]) 5 10 50 0 0
        { events := [], progresses := [], requests := [] }).events = [10, 30, 40, 50] ∧
    ((getEventsLoop (fun j => if j = 2 then .error () else .ok [10 * j]) 5 10 50 0 0
        { events := [], progresses := [], requests := [] }).progresses.map
        FetchProgress.currentBatch) = [1, 3, 4, 5] := by
  refine ⟨?_, ?_, ?_⟩
  · intro α oracle total W endT cur k acc hW hcur herr
    exact getEventsLoop_error oracle total W endT cur k acc hW hcur herr
  · iterate 6 (rw [getEventsLoop]; norm_num)
  · iterate 6 (rw [getEventsLoop]; norm_num)

/-- Witness for C3: the failed-window step equation at a concrete
state. -/
theorem getEvents_error_continues_witness :
    getEventsLoop (fun _ => (.error () : Except Unit (List Nat))) 3 10 25 0 0
        { events := [], progresses := [], requests := [] } =
      getEventsLoop (fun _ => (.error () : Except Unit (List Nat))) 3 10 25
        (min (0 + 10) 25) 1
        { events := [], progresses := [], requests := [(0, min (0 + 10) 25)] } :=
  getEvents_error_continues.1 Nat (fun _ => .error ()) 3 10 25 0 0
    { events := [], progresses := [], requests := [] } (by decide) (by decide) rfl

/-- C9: a window whose batch fetch fails never triggers the
early-termination policy: if the failed window is not the last one, the
run issues at least one further subscription request afterwards (the
failed window's own request plus at least one for a later window). Only a
successful empty window stops the scan, as proved for C1. -/
theorem getEvents_error_not_terminating {α : Type} (oracle : Nat → Except Unit (List α))
    (total W endT cur k : Nat) (acc : FetchRun α)
    (hW : 0 < W) (hcur : cur < endT) (hnext : min (cur + W) endT < endT)
    (herr : oracle (k + 1) = .error ()) :
    acc.requests.length + 2 ≤ (getEventsLoop oracle total W endT cur k acc).requests.length := by
  rw [getEventsLoop_error oracle total W endT cur k acc hW hcur herr]
  have h2 := getEventsLoop_requests_one oracle total W endT (min (cur + W) endT) (k + 1)
    { acc with requests := acc.requests ++ [(cur, min (cur + W) endT)] } hW hnext
  simp only [List.length_append, List.length_cons, List.length_nil] at h2
  omega

/-- Witness for C9: with every batch failing, a three-window run still
issues all three requests. -/
theorem getEvents_error_not_terminating_witness :
    2 ≤ (getEventsLoop (fun _ => (.error () : Except Unit (List Nat))) 3 10 25 0 0
      { events := [], progresses := [], requests := [] }).requests.length :=
  getEvents_error_not_terminating (fun _ => .error ()) 3 10 25 0 0
    { events := [], progresses := [], requests := [] } (by decide) (by decide) (by decide) rfl

/-- C10: a window that succeeds with zero records (the early-termination
case) still gets a progress notification before the fetch stops, and its
cumulative event count equals that of the previous notification. -/
theorem getEvents_empty_batch_progress {α : Type} (oracle : Nat → Except Unit (List α))
    (total W endT cur k : Nat) (acc : FetchRun α) (p : FetchProgress)
    (hW : 0 < W) (hcur : cur < endT) (hok : oracle (k + 1) = .ok ([] : List α))
    (hlast : acc.progresses.getLast? = some p)
    (hcount : p.fetchedEvents = acc.events.length) :
    (getEventsLoop oracle total W endT cur k acc).progresses =
      acc.progresses ++
        [{ currentBatch := k + 1, totalBatches := total,
           fetchedEvents := p.fetchedEvents,
           batchStart := cur, batchEnd := min (cur + W) endT }] := by
  rw [getEventsLoop_ok_empty oracle total W endT cur k acc hW hcur hok, hcount]

/-- Witness for C10: after a nonempty window 1, the empty window 2 emits a
notification repeating window 1's count of one event. -/
theorem getEvents_empty_batch_progress_witness :
    (getEventsLoop (fun _ => .ok ([] : List Nat)) 2 10 9 5 1
        { events := [7],
          progresses := [{ currentBatch := 1, totalBatches := 2, fetchedEvents := 1,
                           batchStart := 0, batchEnd := 5 }],
          requests := [(0, 5)] }).progresses =
      [{ currentBatch := 1, totalBatches := 2, fetchedEvents := 1,
         batchStart := 0, batchEnd := 5 },
       { currentBatch := 2, totalBatches := 2, fetchedEvents := 1,
         batchStart := 5, batchEnd := min (5 + 10) 9 }] :=
  getEvents_empty_batch_progress (fun _ => .ok []) 2 10 9 5 1
    { events := [7],
      progresses := [{ currentBatch := 1, totalBatches := 2, fetchedEvents := 1,
                       batchStart := 0, batchEnd := 5 }],
      requests := [(0, 5)] }
    { currentBatch := 1, totalBatches := 2, fetchedEvents := 1,
      batchStart := 0, batchEnd := 5 }
    (by decide) (by decide) rfl (by decide) (by decide)

/-- C6: for `overallStart < overallEnd` and a positive window size, the
planned window sequence exactly covers the range: its length is the
reported `totalBatches` ceiling, every window ends at
`min (start + W) overallEnd`, the first window starts at `overallStart`,
adjacent windows are contiguous, and the last window ends at
`overallEnd`. -/
theorem planWindows_covers (overallStart overallEnd W : Nat)
    (hlt : overallStart < overallEnd) (hW : 0 < W) :
    (planWindows W overallEnd overallStart).length = totalBatches overallStart overallEnd W ∧
    (∀ w ∈ planWindows W overallEnd overallStart, w.2 = min (w.1 + W) overallEnd) ∧
    (planWindows W overallEnd overallStart).head?.map Prod.fst = some overallStart ∧
    List.Chain' (fun a b => a.2 = b.1) (planWindows W overallEnd overallStart) ∧
    ((planWindows W overallEnd overallStart).getLast?).map Prod.snd = some overallEnd := by
  refine ⟨planWindows_length W overallEnd hW overallStart,
    planWindows_ends W overallEnd overallStart, ?_,
    planWindows_chain W overallEnd overallStart,
    planWindows_last W overallEnd overallStart hlt hW⟩
  rw [planWindows_head W overallEnd overallStart hW hlt]
  rfl

/-- Witness for C6: the plan for the range 0..5 with window size 2
(two full windows and one clipped window). -/
theorem planWindows_covers_witness :
    (planWindows 2 5 0).length = totalBatches 0 5 2 ∧
    (planWindows 2 5 0).head?.map Prod.fst = some 0 ∧
    List.Chain' (fun a b => a.2 = b.1) (planWindows 2 5 0) ∧
    ((planWindows 2 5 0).getLast?).map Prod.snd = some 5 :=
  ⟨(planWindows_covers 0 5 2 (by decide) (by decide)).1,
   (planWindows_covers 0 5 2 (by decide) (by decide)).2.2.1,
   (planWindows_covers 0 5 2 (by decide) (by decide)).2.2.2.1,
   (planWindows_covers 0 5 2 (by decide) (by decide)).2.2.2.2⟩

/-- C4: receipt of a matching data message appends its payload to the
result buffer and re-arms the silence timer; if that timer then fires
before any EOSE, the batch resolves normally (as a fulfilled promise, not
an error): a close request is sent and exactly the accumulated records are
returned. -/
theorem event_appends_and_timeout_resolves {α : Type} (s : BatchState α) (e : α)
    (hh : s.handlerActive = true) (he : s.receivedEose = false) (ho : s.outcome = none) :
    (fetchBatchStep s (.wire (.eventMsg e))).events = s.events ++ [e] ∧
    (fetchBatchStep s (.wire (.eventMsg e))).timerActive = true ∧
    (fetchBatchStep (fetchBatchStep s (.wire (.eventMsg e))) .silence).outcome =
      some (.ok (s.events ++ [e])) ∧
    (fetchBatchStep (fetchBatchStep s (.wire (.eventMsg e))) .silence).sent =
      s.sent ++ [.close] := by
  simp [fetchBatchStep, hh, he, ho, settleOnce]

/-- Witness for C4: one event arriving after setup, then the timeout. -/
theorem event_appends_and_timeout_resolves_witness :
    (fetchBatchStep (fetchBatchInit : BatchState Nat) (.wire (.eventMsg 5))).events = [5] ∧
    (fetchBatchStep (fetchBatchInit : BatchState Nat) (.wire (.eventMsg 5))).timerActive = true ∧
    (fetchBatchStep (fetchBatchStep (fetchBatchInit : BatchState Nat)
        (.wire (.eventMsg 5))) .silence).outcome = some (.ok [5]) ∧
    (fetchBatchStep (fetchBatchStep (fetchBatchInit : BatchState Nat)
        (.wire (.eventMsg 5))) .silence).sent = [.req, .close] :=
  event_appends_and_timeout_resolves fetchBatchInit 5 rfl rfl rfl

/-- C5: on receipt of an EOSE the batch resolves exactly once: the promise
is fulfilled with exactly the records received before the EOSE, the
silence timer is cancelled, a close request is sent, and no later input —
in particular no timer firing — changes the state again. -/
theorem eose_resolves_exactly_once {α : Type} (s : BatchState α)
    (l : List (BatchInput α)) (hh : s.handlerActive = true) (ho : s.outcome = none) :
    (fetchBatchStep s (.wire .eoseMsg)).outcome = some (.ok s.events) ∧
    (fetchBatchStep s (.wire .eoseMsg)).timerActive = false ∧
    (fetchBatchStep s (.wire .eoseMsg)).sent = s.sent ++ [.close] ∧
    l.foldl fetchBatchStep (fetchBatchStep s (.wire .eoseMsg)) =
      fetchBatchStep s (.wire .eoseMsg) := by
  refine ⟨by simp [fetchBatchStep, hh, ho, settleOnce],
    by simp [fetchBatchStep, hh],
    by simp [fetchBatchStep, hh], ?_⟩
  exact fetchBatchFoldl_fixed _ (by simp [fetchBatchStep, hh]) (by simp [fetchBatchStep, hh]) l

/-- Witness for C5: an EOSE right after one event, followed by a stale
timer firing and another message, neither of which has any effect. -/
theorem eose_resolves_exactly_once_witness :
    (fetchBatchStep (fetchBatchRun [.wire (.eventMsg 4)]) (.wire .eoseMsg)).outcome =
      some (.ok [4]) ∧
    (fetchBatchStep (fetchBatchRun [.wire (.eventMsg 4)]) (.wire .eoseMsg)).timerActive = false ∧
    (fetchBatchStep (fetchBatchRun [.wire (.eventMsg 4)]) (.wire .eoseMsg)).sent =
      [.req, .close] ∧
    List.foldl fetchBatchStep
        (fetchBatchStep (fetchBatchRun [.wire (.eventMsg 4)]) (.wire .eoseMsg))
        [.silence, .wire (.eventMsg 9)] =
      fetchBatchStep (fetchBatchRun [.wire (.eventMsg 4)]) (.wire .eoseMsg) :=
  eose_resolves_exactly_once (fetchBatchRun [.wire (.eventMsg 4)])
    [.silence, .wire (.eventMsg 9)] (by decide) (by decide)

/-- C2 counterexample: a malformed message makes the batch fail (the
promise is rejected), yet no close request is ever sent on the
connection — contradicting the claim that the subscription is closed
before the failure propagates. -/
theorem malformed_close_counterexample :
    (fetchBatchRun ([.wire .malformed] : List (BatchInput Nat))).outcome =
      some (.error ()) ∧
    OutMsg.close ∉ (fetchBatchRun ([.wire .malformed] : List (BatchInput Nat))).sent := by
  decide

/-- C2 (amended): on a malformed message the window fails with the thrown
error: `cleanup()` clears the silence timer and detaches the message
handler before the rejection propagates, but no close request is sent for
the subscription. -/
theorem malformed_rejects_no_close {α : Type} (s : BatchState α)
    (hh : s.handlerActive = true) (ho : s.outcome = none) :
    (fetchBatchStep s (.wire .malformed)).outcome = some (.error ()) ∧
    (fetchBatchStep s (.wire .malformed)).timerActive = false ∧
    (fetchBatchStep s (.wire .malformed)).handlerActive = false ∧
    (fetchBatchStep s (.wire .malformed)).sent = s.sent := by
  simp [fetchBatchStep, hh, ho, settleOnce]

/-- Witness for the amended C2: the malformed message arriving right after
setup. -/
theorem malformed_rejects_no_close_witness :
    (fetchBatchStep (fetchBatchInit : BatchState Nat) (.wire .malformed)).outcome =
      some (.error ()) ∧
    (fetchBatchStep (fetchBatchInit : BatchState Nat) (.wire .malformed)).timerActive = false ∧
    (fetchBatchStep (fetchBatchInit : BatchState Nat) (.wire .malformed)).handlerActive = false ∧
    (fetchBatchStep (fetchBatchInit : BatchState Nat) (.wire .malformed)).sent = [.req] :=
  malformed_rejects_no_close fetchBatchInit rfl rfl

/-- C7: across one `getEvents` run the progress notifications carry a
monotonically non-decreasing cumulative event count, and their window
indices are strictly increasing — hence at most one notification per
window. -/
theorem getEvents_progress_ordered {α : Type}
    (decode : String → Option (String × Option String))
    (oracle : Nat → Except Unit (List α)) (pubkey : String)
    (startTime nowTime : Nat) (r : FetchRun α)
    (h : getEvents decode oracle pubkey startTime nowTime = .ok r) :
    List.Pairwise
      (fun p q => p.fetchedEvents ≤ q.fetchedEvents ∧ p.currentBatch < q.currentBatch)
      r.progresses := by
  rw [getEvents] at h
  cases hn : normalizePubkey decode pubkey with
  | error e =>
    rw [hn] at h
    cases h
  | ok v =>
    rw [hn] at h
    injection h with h2
    rw [← h2]
    exact getEventsLoop_pairwise oracle _ 86400 nowTime startTime 0 _
      (by intro p hp; cases hp) (by constructor)

/-- Witness for C7: a one-window run through the npub path. -/
theorem getEvents_progress_ordered_witness :
    List.Pairwise
      (fun p q => p.fetchedEvents ≤ q.fetchedEvents ∧ p.currentBatch < q.currentBatch)
      (FetchRun.progresses
        { events := [3],
          progresses := [{ currentBatch := 1, totalBatches := 1, fetchedEvents := 1,
                           batchStart := 0, batchEnd := 2 }],
          requests := [(0, 2)] }) :=
  getEvents_progress_ordered (fun _ => some ("npub", some "ab")) (fun _ => .ok [3])
    "npub1x" 0 2
    { events := [3],
      progresses := [{ currentBatch := 1, totalBatches := 1, fetchedEvents := 1,
                       batchStart := 0, batchEnd := 2 }],
      requests := [(0, 2)] }
    (by
      have hn : normalizePubkey (fun _ => some ("npub", some "ab")) "npub1x" =
          .ok "ab" := by decide
      rw [getEvents, hn]
      rw [getEventsLoop]
      norm_num [totalBatches]
      rw [getEventsLoop]
      norm_num)

/-- C8: on a 64-character hexadecimal input, `normalizePubkey` succeeds
and returns the lower-cased input, whose digits carry the same
hexadecimal values as the input's; applied to its own output it returns
that same key. -/
theorem normalizePubkey_hex64 (decode : String → Option (String × Option String))
    (s : String) (h : isHex64 s = true) :
    normalizePubkey decode s = .ok (jsToLower s) ∧
    (jsToLower s).data.map hexDigitVal = s.data.map hexDigitVal ∧
    normalizePubkey decode (jsToLower s) = .ok (jsToLower s) := by
  have hs : jsStartsWith s "npub" = false := jsStartsWith_npub_of_hex s h
  have hls : isHex64 (jsToLower s) = true := isHex64_jsToLower s h
  have hls2 : jsStartsWith (jsToLower s) "npub" = false := jsStartsWith_npub_of_hex _ hls
  refine ⟨?_, ?_, ?_⟩
  · simp [normalizePubkey, isValidPubkey, hs, h]
  · have hall : ∀ c ∈ s.data, hexDigit c = true := by
      simp only [isHex64, Bool.and_eq_true, beq_iff_eq, List.all_eq_true] at h
      exact h.2
    rw [jsToLower_data, List.map_map]
    apply List.map_congr_left
    intro c hc
    simp only [Function.comp_apply]
    exact (toLower_hexDigit c (hall c hc)).2.1
  · simp [normalizePubkey, isValidPubkey, hls, hls2, jsToLower_idem s h]

/-- Witness for C8: a concrete mixed-case 64-character hexadecimal key. -/
theorem normalizePubkey_hex64_witness :
    isHex64 "0123456789abcdefABCDEF0123456789abcdefABCDEF0123456789abcdefABCD" = true ∧
    normalizePubkey (fun _ => none)
        "0123456789abcdefABCDEF0123456789abcdefABCDEF0123456789abcdefABCD" =
      .ok (jsToLower "0123456789abcdefABCDEF0123456789abcdefABCDEF0123456789abcdefABCD") :=
  ⟨by decide,
   (normalizePubkey_hex64 (fun _ => none)
     "0123456789abcdefABCDEF0123456789abcdefABCDEF0123456789abcdefABCD" (by decide)).1⟩

end NostrActivity
